import Mathlib

/-!
# Verification of the cto2api credential store, chat relay and orchestrator

This file gives a shallow embedding, in Lean 4, of the core logic of the
`cto2api` repository (Go):

* `models/cookie.go` — the credential store (`DataStore`): cookie map,
  derived enabled-id list, round-robin cursor, and the operations
  `AddCookie`, `UpdateCookie`, `DeleteCookie`, `GetNextCookie`,
  `RecordError`.
* `services/cto_client.go` — the chat relay (`StreamChat`, `GetFullResponse`)
  over a WebSocket read loop, modelled as a function of the sequence of read
  outcomes, parameterised by the JSON decoder.
* `handlers/api.go` — model→adapter mapping and the prompt-extraction /
  credential-selection prefix of `ChatCompletions`.
* the usage cache (`UsageManager`), whose implementation file is not part of
  the sources; it is modelled from the specification.

Go maps over string keys are embedded as association lists with unique keys;
Go slice operations are embedded as list functions written to mirror the Go
loops statement by statement.  A Go runtime fault (out-of-range index or nil
dereference) is embedded as the `.error` case of `Except String`.
-/

set_option autoImplicit false

namespace Cto2api

/-! ## Association-list maps (embedding of Go `map[string]V`) -/

/-- First-match lookup in an association list, the read `m[k]` of a Go map
with unique keys (presence distinguished via `Option`). -/
def alookup {β : Type} (k : String) : List (String × β) → Option β
  | [] => none
  | (k1, v) :: rest => if k1 = k then some v else alookup k rest

/-- Write `m[k] = v` of a Go map: replace the entry if the key is present,
otherwise add a new entry. -/
def ainsert {β : Type} (k : String) (v : β) : List (String × β) → List (String × β)
  | [] => [(k, v)]
  | (k1, v1) :: rest => if k1 = k then (k, v) :: rest else (k1, v1) :: ainsert k v rest

/-- `delete(m, k)` of a Go map: drop the (first) entry with the key. -/
def aremove {β : Type} (k : String) : List (String × β) → List (String × β)
  | [] => []
  | (k1, v1) :: rest => if k1 = k then rest else (k1, v1) :: aremove k rest

/-- The key list of an association list. -/
def akeys {β : Type} (m : List (String × β)) : List String :=
  m.map Prod.fst

@[simp] theorem akeys_nil {β : Type} : akeys ([] : List (String × β)) = [] := rfl

@[simp] theorem akeys_cons {β : Type} (p : String × β) (m : List (String × β)) :
    akeys (p :: m) = p.1 :: akeys m := rfl

theorem alookup_ainsert_self {β : Type} (k : String) (v : β) (m : List (String × β)) :
    alookup k (ainsert k v m) = some v := by
  induction m with
  | nil => simp [ainsert, alookup]
  | cons p rest ih =>
    obtain ⟨k1, v1⟩ := p
    by_cases h : k1 = k
    · simp [ainsert, alookup, h]
    · simp [ainsert, alookup, h, ih]

theorem alookup_ainsert_ne {β : Type} (k k2 : String) (v : β) (m : List (String × β))
    (h : k2 ≠ k) : alookup k2 (ainsert k v m) = alookup k2 m := by
  have hne : ¬ k = k2 := fun hh => h hh.symm
  induction m with
  | nil => simp [ainsert, alookup, hne]
  | cons p rest ih =>
    obtain ⟨k1, v1⟩ := p
    by_cases h1 : k1 = k
    · subst h1
      simp [ainsert, alookup, hne]
    · by_cases h2 : k1 = k2
      · subst h2
        simp [ainsert, alookup, h1]
      · simp [ainsert, alookup, h1, h2, ih]

theorem alookup_ne_of_not_mem {β : Type} (k : String) (m : List (String × β))
    (h : k ∉ akeys m) : alookup k m = none := by
  induction m with
  | nil => simp [alookup]
  | cons p rest ih =>
    obtain ⟨k1, v1⟩ := p
    simp only [akeys_cons, List.mem_cons, not_or] at h
    have h1 : ¬ k1 = k := fun hh => h.1 hh.symm
    simp [alookup, h1, ih h.2]

theorem mem_of_alookup {β : Type} (k : String) (v : β) (m : List (String × β))
    (h : alookup k m = some v) : (k, v) ∈ m := by
  induction m with
  | nil => simp [alookup] at h
  | cons p rest ih =>
    obtain ⟨k1, v1⟩ := p
    by_cases h1 : k1 = k
    · subst h1
      simp [alookup] at h
      simp [h]
    · simp only [alookup, if_neg h1] at h
      exact List.mem_cons_of_mem _ (ih h)

theorem alookup_of_mem {β : Type} (k : String) (v : β) (m : List (String × β))
    (hnd : (akeys m).Nodup) (h : (k, v) ∈ m) : alookup k m = some v := by
  induction m with
  | nil => simp at h
  | cons p rest ih =>
    obtain ⟨k1, v1⟩ := p
    simp only [akeys_cons, List.nodup_cons] at hnd
    rcases List.mem_cons.mp h with h | h
    · have h1 : k = k1 ∧ v = v1 := by simpa using h
      obtain ⟨rfl, rfl⟩ := h1
      simp [alookup]
    · have hk : ¬ k1 = k := by
        rintro rfl
        exact hnd.1 (List.mem_map_of_mem Prod.fst h)
      simp [alookup, hk, ih hnd.2 h]

theorem mem_keys_of_alookup {β : Type} (k : String) (v : β) (m : List (String × β))
    (h : alookup k m = some v) : k ∈ akeys m :=
  List.mem_map_of_mem Prod.fst (mem_of_alookup k v m h)

theorem akeys_ainsert_mem {β : Type} (k : String) (v : β) (m : List (String × β))
    (h : k ∈ akeys m) : akeys (ainsert k v m) = akeys m := by
  induction m with
  | nil => simp at h
  | cons p rest ih =>
    obtain ⟨k1, v1⟩ := p
    by_cases h1 : k1 = k
    · simp [ainsert, h1]
    · simp only [akeys_cons, List.mem_cons] at h
      rcases h with h | h
      · exact absurd h.symm h1
      · simp [ainsert, h1, ih h]

theorem akeys_ainsert_not_mem {β : Type} (k : String) (v : β) (m : List (String × β))
    (h : k ∉ akeys m) : akeys (ainsert k v m) = akeys m ++ [k] := by
  induction m with
  | nil => simp [ainsert]
  | cons p rest ih =>
    obtain ⟨k1, v1⟩ := p
    simp only [akeys_cons, List.mem_cons, not_or] at h
    have h1 : ¬ k1 = k := fun hh => h.1 hh.symm
    simp [ainsert, h1, ih h.2]

theorem mem_ainsert_elim_nodup {β : Type} (k : String) (v : β) (p : String × β)
    (m : List (String × β)) (hnd : (akeys m).Nodup) (h : p ∈ ainsert k v m) :
    p = (k, v) ∨ (p ∈ m ∧ p.1 ≠ k) := by
  induction m with
  | nil =>
    simp only [ainsert, List.mem_singleton] at h
    exact Or.inl h
  | cons q rest ih =>
    obtain ⟨k1, v1⟩ := q
    simp only [akeys_cons, List.nodup_cons] at hnd
    by_cases h1 : k1 = k
    · subst h1
      simp [ainsert] at h
      rcases h with h | h
      · exact Or.inl h
      · refine Or.inr ⟨List.mem_cons_of_mem _ h, ?_⟩
        rintro hk
        exact hnd.1 (hk ▸ List.mem_map_of_mem Prod.fst h)
    · simp only [ainsert, if_neg h1, List.mem_cons] at h
      rcases h with h | h
      · subst h
        exact Or.inr ⟨List.mem_cons_self _ _, h1⟩
      · rcases ih hnd.2 h with h | h
        · exact Or.inl h
        · exact Or.inr ⟨List.mem_cons_of_mem _ h.1, h.2⟩

theorem mem_aremove_elim_nodup {β : Type} (k : String) (p : String × β)
    (m : List (String × β)) (hnd : (akeys m).Nodup) (h : p ∈ aremove k m) :
    p ∈ m ∧ p.1 ≠ k := by
  induction m with
  | nil => simp [aremove] at h
  | cons q rest ih =>
    obtain ⟨k1, v1⟩ := q
    simp only [akeys_cons, List.nodup_cons] at hnd
    by_cases h1 : k1 = k
    · subst h1
      simp [aremove] at h
      refine ⟨List.mem_cons_of_mem _ h, ?_⟩
      rintro hk
      exact hnd.1 (hk ▸ List.mem_map_of_mem Prod.fst h)
    · simp only [aremove, if_neg h1, List.mem_cons] at h
      rcases h with h | h
      · subst h
        exact ⟨List.mem_cons_self _ _, h1⟩
      · obtain ⟨h2, h3⟩ := ih hnd.2 h
        exact ⟨List.mem_cons_of_mem _ h2, h3⟩

theorem mem_ainsert_elim {β : Type} (k : String) (v : β) (p : String × β)
    (m : List (String × β)) (h : p ∈ ainsert k v m) : p = (k, v) ∨ p ∈ m := by
  induction m with
  | nil => simpa [ainsert] using h
  | cons q rest ih =>
    obtain ⟨k1, v1⟩ := q
    by_cases h1 : k1 = k
    · simp only [ainsert, if_pos h1, List.mem_cons] at h
      rcases h with h | h
      · exact Or.inl h
      · exact Or.inr (List.mem_cons_of_mem _ h)
    · simp only [ainsert, if_neg h1, List.mem_cons] at h
      rcases h with h | h
      · exact Or.inr (List.mem_cons.mpr (Or.inl h))
      · rcases ih h with h | h
        · exact Or.inl h
        · exact Or.inr (List.mem_cons_of_mem _ h)

theorem akeys_aremove_sublist {β : Type} (k : String) (m : List (String × β)) :
    (akeys (aremove k m)).Sublist (akeys m) := by
  induction m with
  | nil => simp [aremove]
  | cons p rest ih =>
    obtain ⟨k1, v1⟩ := p
    by_cases h1 : k1 = k
    · simp only [aremove, if_pos h1, akeys_cons]
      exact List.sublist_cons_self _ _
    · simp only [aremove, if_neg h1, akeys_cons]
      exact List.Sublist.cons₂ _ ih

theorem alookup_aremove_self {β : Type} (k : String) (m : List (String × β))
    (hnd : (akeys m).Nodup) : alookup k (aremove k m) = none := by
  induction m with
  | nil => simp [aremove, alookup]
  | cons p rest ih =>
    obtain ⟨k1, v1⟩ := p
    simp only [akeys_cons, List.nodup_cons] at hnd
    by_cases h1 : k1 = k
    · subst h1
      simp only [aremove, if_pos rfl]
      exact alookup_ne_of_not_mem _ _ hnd.1
    · simp [aremove, alookup, h1, ih hnd.2]

theorem alookup_aremove_ne {β : Type} (k k2 : String) (m : List (String × β))
    (h : k2 ≠ k) : alookup k2 (aremove k m) = alookup k2 m := by
  induction m with
  | nil => simp [aremove]
  | cons p rest ih =>
    obtain ⟨k1, v1⟩ := p
    by_cases h1 : k1 = k
    · subst h1
      have hne : ¬ k1 = k2 := fun hh => h hh.symm
      simp [aremove, alookup, hne]
    · by_cases h2 : k1 = k2
      · subst h2
        simp [aremove, alookup, h1]
      · simp [aremove, alookup, h1, h2, ih]

theorem mem_aremove_elim {β : Type} (k : String) (p : String × β)
    (m : List (String × β)) (h : p ∈ aremove k m) : p ∈ m := by
  induction m with
  | nil => simp [aremove] at h
  | cons q rest ih =>
    obtain ⟨k1, v1⟩ := q
    by_cases h1 : k1 = k
    · simp only [aremove, if_pos h1] at h
      exact List.mem_cons_of_mem _ h
    · simp only [aremove, if_neg h1, List.mem_cons] at h
      rcases h with h | h
      · exact List.mem_cons.mpr (Or.inl h)
      · exact List.mem_cons_of_mem _ (ih h)

/-! ## Credential store (`models/cookie.go`) -/

/-- `CookieInfo` from `models/cookie.go`: one upstream credential with its
bookkeeping counters.  Timestamps are abstracted as naturals. -/
structure CookieInfo where
  id : String
  cookie : String
  name : String
  enabled : Bool
  requestCount : Nat
  errorCount : Nat
  lastUsedAt : Nat
  createdAt : Nat
deriving Repr, DecidableEq

/-- The mutable state of `DataStore` from `models/cookie.go`: cookie map,
derived enabled-id list and round-robin cursor.  (The file path and the
persisted `AppData` mirror are I/O plumbing and carry no logic over this
state, so they are not part of the embedded state.) -/
structure DataStore where
  cookies : List (String × CookieInfo)
  enabledList : List String
  currentIndex : Nat
deriving Repr, DecidableEq

/-- The store a fresh process starts from before loading (`GetStore`):
empty map, empty enabled list, cursor `0`. -/
def emptyStore : DataStore :=
  { cookies := [], enabledList := [], currentIndex := 0 }

/-- `removeFromEnabledList` from `models/cookie.go`: scan the enabled list
and splice out the first occurrence of `id` (the loop `break`s after the
first hit). -/
def removeFromEnabledList (id : String) : List String → List String
  | [] => []
  | cid :: rest => if cid = id then rest else cid :: removeFromEnabledList id rest

/-- `AddCookie` from `models/cookie.go`: insert into the map and, when
enabled, append the id to the enabled list. -/
def AddCookie (cookie : CookieInfo) (s : DataStore) : DataStore :=
  { s with
    cookies := ainsert cookie.id cookie s.cookies
    enabledList := if cookie.enabled then s.enabledList ++ [cookie.id] else s.enabledList }

/-- The partial-update argument of `UpdateCookie`: the handler builds the Go
`map[string]interface{}` from the optional request fields `name`, `cookie`,
`enabled`, so present-and-well-typed keys are exactly these options. -/
structure CookieUpdates where
  name : Option String := none
  enabled : Option Bool := none
  cookie : Option String := none
deriving Repr, DecidableEq

/-- The `if name, ok := updates["name"].(string)` statement of
`UpdateCookie`. -/
def applyName (u : CookieUpdates) (c : CookieInfo) : CookieInfo :=
  match u.name with
  | some n => { c with name := n }
  | none => c

/-- The `if cookieStr, ok := updates["cookie"].(string)` statement of
`UpdateCookie`. -/
def applyCookieStr (u : CookieUpdates) (c : CookieInfo) : CookieInfo :=
  match u.cookie with
  | some cs => { c with cookie := cs }
  | none => c

/-- `UpdateCookie` from `models/cookie.go`: if the id is unknown do nothing;
otherwise apply `name`, then the `enabled` toggle (appending to the enabled
list when the flag flips `false → true`, removing from it when it flips
`true → false`, leaving the list alone otherwise), then `cookie`, and write
the updated credential back to the map. -/
def UpdateCookie (id : String) (u : CookieUpdates) (s : DataStore) : DataStore :=
  match alookup id s.cookies with
  | none => s
  | some c0 =>
    let c1 := applyName u c0
    match u.enabled with
    | some e =>
      let c2 := { c1 with enabled := e }
      if e && !c1.enabled then
        { s with cookies := ainsert id (applyCookieStr u c2) s.cookies
                 enabledList := s.enabledList ++ [id] }
      else if !e && c1.enabled then
        { s with cookies := ainsert id (applyCookieStr u c2) s.cookies
                 enabledList := removeFromEnabledList id s.enabledList }
      else
        { s with cookies := ainsert id (applyCookieStr u c2) s.cookies }
    | none =>
      { s with cookies := ainsert id (applyCookieStr u c1) s.cookies }

/-- `DeleteCookie` from `models/cookie.go`: when the id exists, first remove
it from the enabled list if the credential is enabled, then delete it from
the map. -/
def DeleteCookie (id : String) (s : DataStore) : DataStore :=
  match alookup id s.cookies with
  | none => s
  | some c =>
    { s with
      cookies := aremove id s.cookies
      enabledList :=
        if c.enabled then removeFromEnabledList id s.enabledList else s.enabledList }

/-- `GetNextCookie` from `models/cookie.go`.  The Go body reads
`s.enabledList[s.currentIndex]` *before* reducing the cursor modulo the list
length; an out-of-range cursor is therefore a runtime panic, embedded as
`.error`.  In the in-range case the cursor advances modulo the length, the
selected credential's request counter is incremented and its last-used
timestamp set to `now`, and the updated credential is returned. -/
def GetNextCookie (now : Nat) (s : DataStore) : Except String (Option CookieInfo × DataStore) :=
  if s.enabledList.length = 0 then .ok (none, s)
  else if s.currentIndex < s.enabledList.length then
    match alookup (s.enabledList.getD s.currentIndex "") s.cookies with
    | none => .error "runtime error: invalid memory address or nil pointer dereference"
    | some c =>
      .ok (some { c with requestCount := c.requestCount + 1, lastUsedAt := now },
        { s with
          currentIndex := (s.currentIndex + 1) % s.enabledList.length
          cookies := ainsert (s.enabledList.getD s.currentIndex "")
            { c with requestCount := c.requestCount + 1, lastUsedAt := now } s.cookies })
  else .error "runtime error: index out of range"

/-- `RecordError` from `models/cookie.go`: increment the error counter when
the id exists. -/
def RecordError (id : String) (s : DataStore) : DataStore :=
  match alookup id s.cookies with
  | none => s
  | some c => { s with cookies := ainsert id { c with errorCount := c.errorCount + 1 } s.cookies }

/-! ### The store invariant -/

/-- `true` iff the map holds `id` and that credential is enabled. -/
def enabledInMap (s : DataStore) (id : String) : Bool :=
  match alookup id s.cookies with
  | some c => c.enabled
  | none => false

/-- Consistency of the derived enabled list with the cookie map: map keys
are unique, the enabled list has no duplicates, every listed id names an
enabled credential, every enabled credential is listed, and every map entry
is keyed by its credential's own id (the `s.cookies[cookie.ID] = cookie`
write discipline of the Go code). -/
def StoreInv (s : DataStore) : Prop :=
  (akeys s.cookies).Nodup ∧
  s.enabledList.Nodup ∧
  (∀ id ∈ s.enabledList, enabledInMap s id = true) ∧
  (∀ p ∈ s.cookies, p.2.enabled = true → p.1 ∈ s.enabledList) ∧
  (∀ p ∈ s.cookies, p.2.id = p.1)

instance (s : DataStore) : Decidable (StoreInv s) :=
  inferInstanceAs (Decidable ((akeys s.cookies).Nodup ∧
    s.enabledList.Nodup ∧
    (∀ id ∈ s.enabledList, enabledInMap s id = true) ∧
    (∀ p ∈ s.cookies, p.2.enabled = true → p.1 ∈ s.enabledList) ∧
    (∀ p ∈ s.cookies, p.2.id = p.1)))

/-! ### Lemmas about `removeFromEnabledList` -/

theorem removeFromEnabledList_sublist (id : String) (l : List String) :
    (removeFromEnabledList id l).Sublist l := by
  induction l with
  | nil => simp [removeFromEnabledList]
  | cons cid rest ih =>
    by_cases h : cid = id
    · simp only [removeFromEnabledList, if_pos h]
      exact List.sublist_cons_self _ _
    · simp only [removeFromEnabledList, if_neg h]
      exact List.Sublist.cons₂ _ ih

theorem mem_removeFromEnabledList_elim (id k : String) (l : List String)
    (h : k ∈ removeFromEnabledList id l) : k ∈ l :=
  (removeFromEnabledList_sublist id l).mem h

theorem not_mem_removeFromEnabledList (id : String) (l : List String)
    (hnd : l.Nodup) : id ∉ removeFromEnabledList id l := by
  induction l with
  | nil => simp [removeFromEnabledList]
  | cons cid rest ih =>
    simp only [List.nodup_cons] at hnd
    by_cases h : cid = id
    · subst h
      simp only [removeFromEnabledList, if_pos rfl]
      exact hnd.1
    · simp only [removeFromEnabledList, if_neg h, List.mem_cons, not_or]
      exact ⟨fun hh => h hh.symm, ih hnd.2⟩

theorem mem_removeFromEnabledList_of_ne (id k : String) (l : List String)
    (hk : k ∈ l) (hne : k ≠ id) : k ∈ removeFromEnabledList id l := by
  induction l with
  | nil => simp at hk
  | cons cid rest ih =>
    by_cases h : cid = id
    · subst h
      rcases List.mem_cons.mp hk with h | h
      · exact absurd h hne
      · simp only [removeFromEnabledList, if_pos rfl]
        exact h
    · simp only [removeFromEnabledList, if_neg h, List.mem_cons]
      rcases List.mem_cons.mp hk with h2 | h2
      · exact Or.inl h2
      · exact Or.inr (ih h2)

theorem removeFromEnabledList_of_not_mem (id : String) (l : List String)
    (h : id ∉ l) : removeFromEnabledList id l = l := by
  induction l with
  | nil => simp [removeFromEnabledList]
  | cons cid rest ih =>
    simp only [List.mem_cons, not_or] at h
    have h1 : ¬ cid = id := fun hh => h.1 hh.symm
    simp [removeFromEnabledList, h1, ih h.2]

@[simp] theorem applyName_enabled (u : CookieUpdates) (c : CookieInfo) :
    (applyName u c).enabled = c.enabled := by
  cases h : u.name <;> simp [applyName, h]

@[simp] theorem applyCookieStr_enabled (u : CookieUpdates) (c : CookieInfo) :
    (applyCookieStr u c).enabled = c.enabled := by
  cases h : u.cookie <;> simp [applyCookieStr, h]

@[simp] theorem applyName_id (u : CookieUpdates) (c : CookieInfo) :
    (applyName u c).id = c.id := by
  cases h : u.name <;> simp [applyName, h]

@[simp] theorem applyCookieStr_id (u : CookieUpdates) (c : CookieInfo) :
    (applyCookieStr u c).id = c.id := by
  cases h : u.cookie <;> simp [applyCookieStr, h]

/-! ### Preservation of the store invariant -/

theorem enabledInMap_eq_of_alookup (s : DataStore) (id : String) (c : CookieInfo)
    (h : alookup id s.cookies = some c) : enabledInMap s id = c.enabled := by
  unfold enabledInMap
  rw [h]

theorem enabledInMap_false_of_none (s : DataStore) (id : String)
    (h : alookup id s.cookies = none) : enabledInMap s id = false := by
  unfold enabledInMap
  rw [h]

theorem enabledInMap_congr (s2 s : DataStore) (k : String)
    (h : alookup k s2.cookies = alookup k s.cookies) :
    enabledInMap s2 k = enabledInMap s k := by
  unfold enabledInMap
  rw [h]

theorem storeInv_ainsert_same_enabled (s : DataStore) (id : String) (c c2 : CookieInfo)
    (hinv : StoreInv s) (hc : alookup id s.cookies = some c) (hen : c2.enabled = c.enabled)
    (hcid : c2.id = c.id)
    (s2 : DataStore) (hck : s2.cookies = ainsert id c2 s.cookies)
    (hel : s2.enabledList = s.enabledList) : StoreInv s2 := by
  obtain ⟨hkeys, hnd, hlist, hmap, hidc⟩ := hinv
  have hid : id ∈ akeys s.cookies := mem_keys_of_alookup id c _ hc
  refine ⟨?_, ?_, ?_, ?_, ?_⟩
  · rw [hck, akeys_ainsert_mem id c2 _ hid]
    exact hkeys
  · rw [hel]; exact hnd
  · intro k hk
    rw [hel] at hk
    by_cases hki : k = id
    · subst hki
      have h2 : alookup k s2.cookies = some c2 := by
        rw [hck]; exact alookup_ainsert_self k c2 s.cookies
      rw [enabledInMap_eq_of_alookup s2 k c2 h2, hen]
      have h3 := hlist k hk
      rw [enabledInMap_eq_of_alookup s k c hc] at h3
      exact h3
    · have h2 : alookup k s2.cookies = alookup k s.cookies := by
        rw [hck]; exact alookup_ainsert_ne id k c2 _ hki
      rw [enabledInMap_congr s2 s k h2]
      exact hlist k hk
  · intro p hp hpe
    rw [hck] at hp
    rw [hel]
    rcases mem_ainsert_elim id c2 p _ hp with h | h
    · subst h
      simp only at hpe
      rw [hen] at hpe
      exact hmap (id, c) (mem_of_alookup id c _ hc) hpe
    · exact hmap p h hpe
  · intro p hp
    rw [hck] at hp
    rcases mem_ainsert_elim_nodup id c2 p _ hkeys hp with h | h
    · subst h
      show c2.id = id
      rw [hcid]
      exact hidc (id, c) (mem_of_alookup id c _ hc)
    · exact hidc p h.1

theorem storeInv_enable (s : DataStore) (id : String) (c c2 : CookieInfo)
    (hinv : StoreInv s) (hc : alookup id s.cookies = some c)
    (hcd : c.enabled = false) (hen : c2.enabled = true) (hcid : c2.id = c.id)
    (s2 : DataStore) (hck : s2.cookies = ainsert id c2 s.cookies)
    (hel : s2.enabledList = s.enabledList ++ [id]) : StoreInv s2 := by
  obtain ⟨hkeys, hnd, hlist, hmap, hidc⟩ := hinv
  have hid : id ∈ akeys s.cookies := mem_keys_of_alookup id c _ hc
  have hidnot : id ∉ s.enabledList := by
    intro hmem
    have h3 := hlist id hmem
    rw [enabledInMap_eq_of_alookup s id c hc, hcd] at h3
    exact Bool.false_ne_true h3
  refine ⟨?_, ?_, ?_, ?_, ?_⟩
  · rw [hck, akeys_ainsert_mem id c2 _ hid]
    exact hkeys
  · rw [hel]
    simp [List.nodup_append, hnd, hidnot]
  · intro k hk
    rw [hel] at hk
    rcases List.mem_append.mp hk with hk2 | hk2
    · have hki : ¬ k = id := by
        rintro rfl
        exact hidnot hk2
      have h2 : alookup k s2.cookies = alookup k s.cookies := by
        rw [hck]; exact alookup_ainsert_ne id k c2 _ hki
      rw [enabledInMap_congr s2 s k h2]
      exact hlist k hk2
    · have hki : k = id := by simpa using hk2
      subst hki
      have h2 : alookup k s2.cookies = some c2 := by
        rw [hck]; exact alookup_ainsert_self k c2 s.cookies
      rw [enabledInMap_eq_of_alookup s2 k c2 h2]
      exact hen
  · intro p hp hpe
    rw [hck] at hp
    rw [hel]
    rcases mem_ainsert_elim id c2 p _ hp with h | h
    · subst h
      simp
    · exact List.mem_append_left _ (hmap p h hpe)
  · intro p hp
    rw [hck] at hp
    rcases mem_ainsert_elim_nodup id c2 p _ hkeys hp with h | h
    · subst h
      show c2.id = id
      rw [hcid]
      exact hidc (id, c) (mem_of_alookup id c _ hc)
    · exact hidc p h.1

theorem storeInv_disable (s : DataStore) (id : String) (c c2 : CookieInfo)
    (hinv : StoreInv s) (hc : alookup id s.cookies = some c) (hen : c2.enabled = false)
    (hcid : c2.id = c.id)
    (s2 : DataStore) (hck : s2.cookies = ainsert id c2 s.cookies)
    (hel : s2.enabledList = removeFromEnabledList id s.enabledList) : StoreInv s2 := by
  obtain ⟨hkeys, hnd, hlist, hmap, hidc⟩ := hinv
  have hid : id ∈ akeys s.cookies := mem_keys_of_alookup id c _ hc
  refine ⟨?_, ?_, ?_, ?_, ?_⟩
  · rw [hck, akeys_ainsert_mem id c2 _ hid]
    exact hkeys
  · rw [hel]
    exact (removeFromEnabledList_sublist id s.enabledList).nodup hnd
  · intro k hk
    rw [hel] at hk
    have hkmem : k ∈ s.enabledList := mem_removeFromEnabledList_elim id k _ hk
    have hki : ¬ k = id := by
      rintro rfl
      exact not_mem_removeFromEnabledList k _ hnd hk
    have h2 : alookup k s2.cookies = alookup k s.cookies := by
      rw [hck]; exact alookup_ainsert_ne id k c2 _ hki
    rw [enabledInMap_congr s2 s k h2]
    exact hlist k hkmem
  · intro p hp hpe
    rw [hck] at hp
    rw [hel]
    rcases mem_ainsert_elim_nodup id c2 p _ hkeys hp with h | h
    · subst h
      simp only at hpe
      rw [hen] at hpe
      exact absurd hpe Bool.false_ne_true
    · exact mem_removeFromEnabledList_of_ne id p.1 _ (hmap p h.1 hpe) h.2
  · intro p hp
    rw [hck] at hp
    rcases mem_ainsert_elim_nodup id c2 p _ hkeys hp with h | h
    · subst h
      show c2.id = id
      rw [hcid]
      exact hidc (id, c) (mem_of_alookup id c _ hc)
    · exact hidc p h.1

/-- `UpdateCookie` preserves the store invariant. -/
theorem updateCookie_storeInv (id : String) (u : CookieUpdates) (s : DataStore)
    (hinv : StoreInv s) : StoreInv (UpdateCookie id u s) := by
  unfold UpdateCookie
  cases hc : alookup id s.cookies with
  | none => exact hinv
  | some c0 =>
    cases he : u.enabled with
    | none =>
      exact storeInv_ainsert_same_enabled s id c0 _ hinv hc (by simp) (by simp) _ rfl rfl
    | some e =>
      simp only
      by_cases hce : c0.enabled
      · cases e
        · -- disabling an enabled credential
          simp only [applyName_enabled, hce, Bool.false_and, Bool.not_false, Bool.not_true,
            Bool.and_self, if_false, if_true, Bool.and_true]
          exact storeInv_disable s id c0 _ hinv hc (by simp) (by simp) _ rfl rfl
        · -- enabling an already-enabled credential: flag unchanged
          simp only [applyName_enabled, hce, Bool.not_true, Bool.and_false, Bool.false_and,
            if_false]
          exact storeInv_ainsert_same_enabled s id c0 _ hinv hc (by simp [hce]) (by simp) _ rfl rfl
      · have hce2 : c0.enabled = false := by simpa using hce
        cases e
        · -- disabling an already-disabled credential: flag unchanged
          simp only [applyName_enabled, hce2, Bool.false_and, Bool.not_false, Bool.and_false,
            if_false]
          exact storeInv_ainsert_same_enabled s id c0 _ hinv hc (by simp [hce2]) (by simp) _ rfl rfl
        · -- enabling a disabled credential
          simp only [applyName_enabled, hce2, Bool.not_false, Bool.and_true, if_true]
          exact storeInv_enable s id c0 _ hinv hc hce2 (by simp) (by simp) _ rfl rfl

/-- `DeleteCookie` preserves the store invariant. -/
theorem deleteCookie_storeInv (id : String) (s : DataStore)
    (hinv : StoreInv s) : StoreInv (DeleteCookie id s) := by
  obtain ⟨hkeys, hnd, hlist, hmap, hidc⟩ := hinv
  unfold DeleteCookie
  cases hc : alookup id s.cookies with
  | none => exact ⟨hkeys, hnd, hlist, hmap, hidc⟩
  | some c =>
    simp only
    refine ⟨?_, ?_, ?_, ?_, ?_⟩
    · exact (akeys_aremove_sublist id s.cookies).nodup hkeys
    · by_cases hce : c.enabled
      · simp only [if_pos hce]
        exact (removeFromEnabledList_sublist id s.enabledList).nodup hnd
      · simp only [if_neg hce]
        exact hnd
    · intro k hk
      have hkmem : k ∈ s.enabledList := by
        by_cases hce : c.enabled
        · rw [if_pos hce] at hk
          exact mem_removeFromEnabledList_elim id k _ hk
        · rw [if_neg hce] at hk
          exact hk
      have hki : ¬ k = id := by
        rintro rfl
        by_cases hce : c.enabled
        · rw [if_pos hce] at hk
          exact not_mem_removeFromEnabledList k _ hnd hk
        · have h3 := hlist k hkmem
          rw [enabledInMap_eq_of_alookup s k c hc] at h3
          exact hce (by simpa using h3)
      have h2 : alookup k (aremove id s.cookies) = alookup k s.cookies :=
        alookup_aremove_ne id k _ hki
      rw [enabledInMap_congr _ s k h2]
      exact hlist k hkmem
    · intro p hp hpe
      simp only at hp
      obtain ⟨hpm, hpne⟩ := mem_aremove_elim_nodup id p _ hkeys hp
      have hmem := hmap p hpm hpe
      by_cases hce : c.enabled
      · rw [if_pos hce]
        exact mem_removeFromEnabledList_of_ne id p.1 _ hmem hpne
      · rw [if_neg hce]
        exact hmem
    · intro p hp
      exact hidc p (mem_aremove_elim id p _ hp)

/-- After `DeleteCookie id`, the id is no longer in the enabled list. -/
theorem deleteCookie_not_mem_enabled (id : String) (s : DataStore)
    (hinv : StoreInv s) : id ∉ (DeleteCookie id s).enabledList := by
  obtain ⟨hkeys, hnd, hlist, hmap, hidc⟩ := hinv
  unfold DeleteCookie
  cases hc : alookup id s.cookies with
  | none =>
    intro hmem
    have h3 := hlist id hmem
    rw [enabledInMap_false_of_none s id hc] at h3
    exact Bool.false_ne_true h3
  | some c =>
    simp only
    by_cases hce : c.enabled
    · rw [if_pos hce]
      exact not_mem_removeFromEnabledList id _ hnd
    · rw [if_neg hce]
      intro hmem
      have h3 := hlist id hmem
      rw [enabledInMap_eq_of_alookup s id c hc] at h3
      exact hce (by simpa using h3)

/-! ### Repeated selection (round-robin runs) -/

/-- `k` consecutive `GetNextCookie` calls with no interleaved mutation,
collecting the returned values in order; a runtime fault aborts the run. -/
def selectRun (now : Nat) : Nat → DataStore → Except String (List (Option CookieInfo) × DataStore)
  | 0, s => .ok ([], s)
  | k+1, s =>
    match GetNextCookie now s with
    | .error e => .error e
    | .ok (r, s1) =>
      match selectRun now k s1 with
      | .error e => .error e
      | .ok (rs, s2) => .ok (r :: rs, s2)

/-- The cookie-map effect of one selection of `id`: request counter `+1`,
last-used timestamp set to `now`. -/
def bumpOne (now : Nat) (id : String) (m : List (String × CookieInfo)) :
    List (String × CookieInfo) :=
  match alookup id m with
  | none => m
  | some c => ainsert id { c with requestCount := c.requestCount + 1, lastUsedAt := now } m

/-- The cookie-map effect of selecting each id of `ids` in order. -/
def bumpAll (now : Nat) : List String → List (String × CookieInfo) → List (String × CookieInfo)
  | [], m => m
  | id :: ids, m => bumpAll now ids (bumpOne now id m)

theorem bumpAll_append (now : Nat) (ids1 ids2 : List String)
    (m : List (String × CookieInfo)) :
    bumpAll now (ids1 ++ ids2) m = bumpAll now ids2 (bumpAll now ids1 m) := by
  induction ids1 generalizing m with
  | nil => simp [bumpAll]
  | cons i ids ih => simp [bumpAll, ih]

/-- Looking up a credential after a sequence of bumps: the request counter
grows by the number of selections of that id, and all identity fields are
unchanged. -/
theorem alookup_bumpAll (now : Nat) (ids : List String) (m : List (String × CookieInfo))
    (id : String) (c : CookieInfo) (h : alookup id m = some c) :
    ∃ c2, alookup id (bumpAll now ids m) = some c2 ∧
      c2.requestCount = c.requestCount + List.count id ids ∧
      c2.enabled = c.enabled ∧ c2.id = c.id ∧ c2.errorCount = c.errorCount := by
  induction ids generalizing m c with
  | nil => exact ⟨c, h, by simp, rfl, rfl, rfl⟩
  | cons i ids ih =>
    by_cases hi : i = id
    · subst hi
      have hb : alookup i (bumpOne now i m) =
          some { c with requestCount := c.requestCount + 1, lastUsedAt := now } := by
        unfold bumpOne
        rw [h]
        exact alookup_ainsert_self i _ m
      obtain ⟨c2, h1, h2, h3, h4, h5⟩ := ih _ _ hb
      refine ⟨c2, by simpa [bumpAll] using h1, ?_, by simpa using h3, by simpa using h4,
        by simpa using h5⟩
      simp only at h2
      rw [h2, List.count_cons_self]
      omega
    · have hb : alookup id (bumpOne now i m) = alookup id m := by
        unfold bumpOne
        cases hl : alookup i m with
        | none => rfl
        | some ci => exact alookup_ainsert_ne i id _ m (fun hh => hi hh.symm)
      obtain ⟨c2, h1, h2, h3, h4, h5⟩ := ih _ _ (hb.trans h)
      refine ⟨c2, by simpa [bumpAll] using h1, ?_, h3, h4, h5⟩
      rw [h2, List.count_cons_of_ne (fun hh => hi hh.symm)]

/-- One in-range `GetNextCookie` call under the invariant: the credential at
the cursor is found and enabled, its counter is bumped, the cursor advances
by one modulo the length, and the invariant is preserved. -/
theorem getNextCookie_ok (now : Nat) (s : DataStore) (hinv : StoreInv s)
    (hidx : s.currentIndex < s.enabledList.length) :
    ∃ c, alookup (s.enabledList.getD s.currentIndex "") s.cookies = some c ∧
      c.enabled = true ∧ c.id = s.enabledList.getD s.currentIndex "" ∧
      GetNextCookie now s =
        .ok (some { c with requestCount := c.requestCount + 1, lastUsedAt := now },
          { s with
            currentIndex := (s.currentIndex + 1) % s.enabledList.length
            cookies := bumpOne now (s.enabledList.getD s.currentIndex "") s.cookies }) ∧
      StoreInv { s with
            currentIndex := (s.currentIndex + 1) % s.enabledList.length
            cookies := bumpOne now (s.enabledList.getD s.currentIndex "") s.cookies } := by
  have hlen : ¬ s.enabledList.length = 0 := by omega
  have hmem : s.enabledList.getD s.currentIndex "" ∈ s.enabledList := by
    rw [List.getD_eq_getElem s.enabledList "" hidx]
    exact List.getElem_mem hidx
  obtain ⟨hkeys, hnd, hlist, hmap, hidc⟩ := hinv
  have hen := hlist _ hmem
  cases hc : alookup (s.enabledList.getD s.currentIndex "") s.cookies with
  | none =>
    rw [enabledInMap_false_of_none _ _ hc] at hen
    exact absurd hen (by simp)
  | some c =>
    rw [enabledInMap_eq_of_alookup _ _ c hc] at hen
    refine ⟨c, rfl, hen, hidc _ (mem_of_alookup _ c _ hc), ?_, ?_⟩
    · unfold GetNextCookie
      rw [if_neg hlen, if_pos hidx, hc]
      unfold bumpOne
      rw [hc]
    · refine storeInv_ainsert_same_enabled s (s.enabledList.getD s.currentIndex "") c
        { c with requestCount := c.requestCount + 1, lastUsedAt := now }
        ⟨hkeys, hnd, hlist, hmap, hidc⟩ hc rfl rfl _ ?_ rfl
      show bumpOne now (s.enabledList.getD s.currentIndex "") s.cookies =
        ainsert (s.enabledList.getD s.currentIndex "")
          { c with requestCount := c.requestCount + 1, lastUsedAt := now } s.cookies
      unfold bumpOne
      rw [hc]

theorem selectRun_succ (now k : Nat) (s : DataStore) :
    selectRun now (k+1) s =
      match GetNextCookie now s with
      | .error e => .error e
      | .ok (r, s1) =>
        match selectRun now k s1 with
        | .error e => .error e
        | .ok (rs, s2) => .ok (r :: rs, s2) := rfl

theorem selectRun_succ_error (now k : Nat) (s : DataStore) (e : String)
    (hg : GetNextCookie now s = .error e) : selectRun now (k+1) s = .error e := by
  rw [selectRun_succ, hg]

theorem selectRun_succ_ok (now k : Nat) (s : DataStore) (r : Option CookieInfo)
    (s1 : DataStore) (hg : GetNextCookie now s = .ok (r, s1)) :
    selectRun now (k+1) s =
      match selectRun now k s1 with
      | .error e => .error e
      | .ok (rs, s2) => .ok (r :: rs, s2) := by
  rw [selectRun_succ, hg]

theorem selectRun_succ_ok_error (now k : Nat) (s : DataStore) (r : Option CookieInfo)
    (s1 : DataStore) (e : String) (hg : GetNextCookie now s = .ok (r, s1))
    (hrun : selectRun now k s1 = .error e) : selectRun now (k+1) s = .error e := by
  rw [selectRun_succ_ok now k s r s1 hg, hrun]

theorem selectRun_succ_ok_ok (now k : Nat) (s : DataStore) (r : Option CookieInfo)
    (s1 : DataStore) (rs : List (Option CookieInfo)) (s2 : DataStore)
    (hg : GetNextCookie now s = .ok (r, s1)) (hrun : selectRun now k s1 = .ok (rs, s2)) :
    selectRun now (k+1) s = .ok (r :: rs, s2) := by
  rw [selectRun_succ_ok now k s r s1 hg, hrun]

/-- A run that does not wrap: starting at cursor `c` with `c + k ≤ N`, the
`k` calls return exactly the ids of the window `(drop c).take k`, the cursor
ends at `(c + k) % N`, and the cookie map is bumped along that window. -/
theorem selectRun_nowrap (now : Nat) (k : Nat) :
    ∀ s : DataStore, StoreInv s →
      s.currentIndex + k ≤ s.enabledList.length →
      s.currentIndex < s.enabledList.length →
      ∃ rs s2, selectRun now k s = .ok (rs, s2) ∧
        rs.map (Option.map CookieInfo.id) =
          ((s.enabledList.drop s.currentIndex).take k).map some ∧
        s2.enabledList = s.enabledList ∧
        s2.currentIndex = (s.currentIndex + k) % s.enabledList.length ∧
        s2.cookies = bumpAll now ((s.enabledList.drop s.currentIndex).take k) s.cookies ∧
        StoreInv s2 := by
  induction k with
  | zero =>
    intro s hinv hk hcur
    refine ⟨[], s, rfl, by simp, rfl, ?_, by simp [bumpAll], hinv⟩
    rw [Nat.add_zero, Nat.mod_eq_of_lt hcur]
  | succ k ih =>
    intro s hinv hk hcur
    have hN : 0 < s.enabledList.length := by omega
    obtain ⟨c, hc, hcen, hcid, hstep, hinv2⟩ := getNextCookie_ok now s hinv hcur
    set s1 : DataStore :=
      { s with
        currentIndex := (s.currentIndex + 1) % s.enabledList.length
        cookies := bumpOne now (s.enabledList.getD s.currentIndex "") s.cookies } with hs1
    have hs1el : s1.enabledList = s.enabledList := rfl
    have hs1cur : s1.currentIndex < s1.enabledList.length := Nat.mod_lt _ hN
    have hs1k : s1.currentIndex + k ≤ s1.enabledList.length := by
      show (s.currentIndex + 1) % s.enabledList.length + k ≤ s.enabledList.length
      rcases Nat.lt_or_ge (s.currentIndex + 1) s.enabledList.length with hlt | hge
      · rw [Nat.mod_eq_of_lt hlt]
        omega
      · have heq : s.currentIndex + 1 = s.enabledList.length := by omega
        have hk0 : k = 0 := by omega
        rw [heq, Nat.mod_self, hk0]
        omega
    obtain ⟨rs, s2, hrun, hids, hel, hci, hcook, hinv3⟩ := ih s1 hinv2 hs1k hs1cur
    have hwin : s.enabledList.drop s.currentIndex =
        s.enabledList.getD s.currentIndex "" :: s.enabledList.drop (s.currentIndex + 1) := by
      rw [List.getD_eq_getElem s.enabledList "" hcur]
      exact List.drop_eq_getElem_cons hcur
    refine ⟨some { c with requestCount := c.requestCount + 1, lastUsedAt := now } :: rs, s2,
      selectRun_succ_ok_ok now k s _ s1 rs s2 hstep hrun, ?_, ?_, ?_, ?_, hinv3⟩
    · rw [hwin, List.take_succ_cons, List.map_cons, List.map_cons]
      refine congrArg₂ List.cons (by simp [hcid]) ?_
      rw [hids, hs1el]
      rcases Nat.lt_or_ge (s.currentIndex + 1) s.enabledList.length with hlt | hge
      · have h6 : s1.currentIndex = s.currentIndex + 1 := Nat.mod_eq_of_lt hlt
        rw [h6]
      · have hk0 : k = 0 := by omega
        subst hk0
        simp
    · rw [hel, hs1el]
    · rw [hci, hs1el]
      show ((s.currentIndex + 1) % s.enabledList.length + k) % s.enabledList.length = _
      rw [Nat.mod_add_mod]
      congr 1
      omega
    · rw [hcook, hs1el, hwin, List.take_succ_cons]
      simp only [bumpAll]
      rcases Nat.lt_or_ge (s.currentIndex + 1) s.enabledList.length with hlt | hge
      · rw [Nat.mod_eq_of_lt hlt]
      · have hk0 : k = 0 := by omega
        subst hk0
        simp only [List.take_zero, bumpAll]

/-- Splitting a run: `k1 + k2` calls are `k1` calls followed by `k2` calls
from the intermediate state. -/
theorem selectRun_split (now k1 k2 : Nat) :
    ∀ (s : DataStore) (rs1 : List (Option CookieInfo)) (s1 : DataStore)
      (rs2 : List (Option CookieInfo)) (s2 : DataStore),
      selectRun now k1 s = .ok (rs1, s1) → selectRun now k2 s1 = .ok (rs2, s2) →
      selectRun now (k1 + k2) s = .ok (rs1 ++ rs2, s2) := by
  induction k1 with
  | zero =>
    intro s rs1 s1 rs2 s2 h1 h2
    simp only [selectRun, Except.ok.injEq, Prod.mk.injEq] at h1
    obtain ⟨rfl, rfl⟩ := h1
    simpa using h2
  | succ k ih =>
    intro s rs1 s1 rs2 s2 h1 h2
    have hadd : k + 1 + k2 = (k + k2) + 1 := by omega
    rw [hadd]
    cases hg : GetNextCookie now s with
    | error e =>
      rw [selectRun_succ_error now k s e hg] at h1
      cases h1
    | ok p =>
      obtain ⟨r, sMid⟩ := p
      cases hrun : selectRun now k sMid with
      | error e =>
        rw [selectRun_succ_ok_error now k s r sMid e hg hrun] at h1
        cases h1
      | ok q =>
        obtain ⟨rsMid, sEnd⟩ := q
        have h3 := (selectRun_succ_ok_ok now k s r sMid rsMid sEnd hg hrun).symm.trans h1
        simp only [Except.ok.injEq, Prod.mk.injEq] at h3
        obtain ⟨hrs, hse⟩ := h3
        subst hse
        rw [← hrs]
        exact selectRun_succ_ok_ok now (k + k2) s r sMid (rsMid ++ rs2) s2 hg
          (ih sMid rsMid sEnd rs2 s2 hrun h2)

/-- A full cycle: `N` calls starting at an in-range cursor return exactly the
rotation of the enabled list starting at the cursor, and the cursor returns
to its starting position. -/
theorem selectRun_cycle (now : Nat) (s : DataStore) (hinv : StoreInv s)
    (hcur : s.currentIndex < s.enabledList.length) :
    ∃ rs s2, selectRun now s.enabledList.length s = .ok (rs, s2) ∧
      rs.map (Option.map CookieInfo.id) =
        (s.enabledList.rotate s.currentIndex).map some ∧
      s2.enabledList = s.enabledList ∧
      s2.currentIndex = s.currentIndex ∧
      s2.cookies = bumpAll now (s.enabledList.rotate s.currentIndex) s.cookies ∧
      StoreInv s2 := by
  have hN : 0 < s.enabledList.length := by omega
  obtain ⟨rs1, sMid, hrun1, hids1, hel1, hci1, hcook1, hinvMid⟩ :=
    selectRun_nowrap now (s.enabledList.length - s.currentIndex) s hinv (by omega) hcur
  have htake1 : (s.enabledList.drop s.currentIndex).take
      (s.enabledList.length - s.currentIndex) = s.enabledList.drop s.currentIndex :=
    List.take_of_length_le (by rw [List.length_drop])
  have hciMid : sMid.currentIndex = 0 := by
    rw [hci1]
    have h5 : s.currentIndex + (s.enabledList.length - s.currentIndex) =
        s.enabledList.length := by omega
    rw [h5, Nat.mod_self]
  obtain ⟨rs2, sEnd, hrun2, hids2, hel2, hci2, hcook2, hinvEnd⟩ :=
    selectRun_nowrap now s.currentIndex sMid hinvMid
      (by rw [hciMid, hel1]; omega) (by rw [hciMid, hel1]; omega)
  have hrot : s.enabledList.rotate s.currentIndex =
      s.enabledList.drop s.currentIndex ++ s.enabledList.take s.currentIndex :=
    List.rotate_eq_drop_append_take (Nat.le_of_lt hcur)
  have hwin2 : (sMid.enabledList.drop sMid.currentIndex).take s.currentIndex =
      s.enabledList.take s.currentIndex := by
    rw [hciMid, hel1, List.drop_zero]
  have hsplit := selectRun_split now (s.enabledList.length - s.currentIndex)
    s.currentIndex s rs1 sMid rs2 sEnd hrun1 hrun2
  have hlen : s.enabledList.length - s.currentIndex + s.currentIndex =
      s.enabledList.length := by omega
  rw [hlen] at hsplit
  refine ⟨rs1 ++ rs2, sEnd, hsplit, ?_, ?_, ?_, ?_, hinvEnd⟩
  · rw [List.map_append, hids1, hids2, htake1, hwin2, hrot, List.map_append]
  · rw [hel2, hel1]
  · rw [hci2, hciMid, hel1, Nat.zero_add, Nat.mod_eq_of_lt hcur]
  · rw [hcook2, hcook1, hwin2, htake1, ← bumpAll_append, ← hrot]

/-! ### Concrete stores for the scenarios -/

/-- An enabled credential as built by the add handler (`AddCookie` in
`handlers/api.go` always creates with `Enabled: true`). -/
def mkCookie (id : String) : CookieInfo :=
  { id := id, cookie := "secret-" ++ id, name := id, enabled := true,
    requestCount := 0, errorCount := 0, lastUsedAt := 0, createdAt := 0 }

/-- Run one selection for its state effect only (scenario plumbing). -/
def stepSelect (now : Nat) (s : DataStore) : DataStore :=
  match GetNextCookie now s with
  | .ok (_, s2) => s2
  | .error _ => s

/-- The C1 scenario, reachable through the public API: add three enabled
credentials, select twice (cursor now `2`), then disable the third
credential (enabled list shrinks to length `2`, cursor left at `2`). -/
def c1Store : DataStore :=
  UpdateCookie "c" { enabled := some false }
    (stepSelect 2 (stepSelect 1
      (AddCookie (mkCookie "c") (AddCookie (mkCookie "b")
        (AddCookie (mkCookie "a") emptyStore)))))

/-- A three-credential store with the cursor mid-rotation, satisfying the
store invariant. -/
def demoStore : DataStore :=
  { cookies := [("a", mkCookie "a"), ("b", mkCookie "b"), ("c", mkCookie "c")]
    enabledList := ["a", "b", "c"]
    currentIndex := 1 }

/-- The enable/disable/delete operation alphabet of C3's sequences. -/
inductive StoreOp where
  | update (id : String) (u : CookieUpdates)
  | delete (id : String)
deriving Repr

/-- Apply one administrative operation to the store. -/
def applyOp (op : StoreOp) (s : DataStore) : DataStore :=
  match op with
  | .update id u => UpdateCookie id u s
  | .delete id => DeleteCookie id s

/-- Apply a sequence of administrative operations, left to right. -/
def applyOps (ops : List StoreOp) (s : DataStore) : DataStore :=
  match ops with
  | [] => s
  | op :: rest => applyOps rest (applyOp op s)

theorem applyOp_storeInv (op : StoreOp) (s : DataStore) (hinv : StoreInv s) :
    StoreInv (applyOp op s) := by
  cases op with
  | update id u => exact updateCookie_storeInv id u s hinv
  | delete id => exact deleteCookie_storeInv id s hinv

theorem applyOps_storeInv (ops : List StoreOp) (s : DataStore) (hinv : StoreInv s) :
    StoreInv (applyOps ops s) := by
  induction ops generalizing s with
  | nil => exact hinv
  | cons op rest ih => exact ih _ (applyOp_storeInv op s hinv)

/-! ## Claim theorems for the credential store -/

/-- **C1** (code_bug evidence).  The spec claims `GetNextCookie` never
faults on a store with a non-empty enabled list because the cursor wraps via
modulo; the code however reads `s.enabledList[s.currentIndex]` *before* the
modulo reduction.  This theorem evaluates the code on the failing scenario
(three enabled credentials, two selections, then disabling one): the enabled
list is the non-empty `["a", "b"]` yet the next call faults with an
out-of-range index instead of wrapping. -/
theorem c1_out_of_range_cursor_faults :
    c1Store.enabledList = ["a", "b"] ∧
    c1Store.currentIndex = 2 ∧
    GetNextCookie 3 c1Store = .error "runtime error: index out of range" :=
  ⟨rfl, rfl, rfl⟩

/-- **C2**.  With `N` enabled credentials, an in-range cursor and no
interleaved mutation, `N` consecutive `GetNextCookie` calls never fault, the
returned credential ids are exactly the rotation of the enabled list
starting at the cursor (fixed rotation order), each enabled id occurs
exactly once among them, and each enabled credential's request counter ends
exactly one above its starting value. -/
theorem c2_round_robin (now : Nat) (s : DataStore) (hinv : StoreInv s)
    (hcur : s.currentIndex < s.enabledList.length) :
    ∃ rs s2, selectRun now s.enabledList.length s = .ok (rs, s2) ∧
      rs.map (Option.map CookieInfo.id) =
        (s.enabledList.rotate s.currentIndex).map some ∧
      (∀ id ∈ s.enabledList, (s.enabledList.rotate s.currentIndex).count id = 1) ∧
      (∀ id c, alookup id s.cookies = some c → id ∈ s.enabledList →
        ∃ c2, alookup id s2.cookies = some c2 ∧
          c2.requestCount = c.requestCount + 1) := by
  obtain ⟨rs, s2, hrun, hids, hel, hci, hcook, hinv2⟩ := selectRun_cycle now s hinv hcur
  have hcount : ∀ id ∈ s.enabledList,
      (s.enabledList.rotate s.currentIndex).count id = 1 := by
    intro id hid
    have hperm := List.rotate_perm s.enabledList s.currentIndex
    rw [hperm.count_eq]
    exact List.count_eq_one_of_mem hinv.2.1 hid
  refine ⟨rs, s2, hrun, hids, hcount, ?_⟩
  intro id c hc hid
  obtain ⟨c2, h1, h2, _, _, _⟩ := alookup_bumpAll now
    (s.enabledList.rotate s.currentIndex) s.cookies id c hc
  rw [hcook]
  refine ⟨c2, h1, ?_⟩
  rw [h2, hcount id hid]

/-- Witness for **C2** on a concrete three-credential store. -/
theorem c2_round_robin_witness :
    ∃ rs s2, selectRun 7 demoStore.enabledList.length demoStore = .ok (rs, s2) ∧
      rs.map (Option.map CookieInfo.id) =
        (demoStore.enabledList.rotate demoStore.currentIndex).map some ∧
      (∀ id ∈ demoStore.enabledList,
        (demoStore.enabledList.rotate demoStore.currentIndex).count id = 1) ∧
      (∀ id c, alookup id demoStore.cookies = some c → id ∈ demoStore.enabledList →
        ∃ c2, alookup id s2.cookies = some c2 ∧
          c2.requestCount = c.requestCount + 1) :=
  c2_round_robin 7 demoStore (by decide) (by decide)

/-- **C3**.  Starting from any store satisfying the invariant, after any
sequence of enable/disable updates and deletes: the enabled list has no
duplicates, contains no disabled (or unknown) credential id, every listed id
is an enabled credential, and deleting any id leaves the enabled list
without that id. -/
theorem c3_enabled_list_invariants (s : DataStore) (ops : List StoreOp)
    (hinv : StoreInv s) :
    (applyOps ops s).enabledList.Nodup ∧
    (∀ id c, alookup id (applyOps ops s).cookies = some c → c.enabled = false →
      id ∉ (applyOps ops s).enabledList) ∧
    (∀ id ∈ (applyOps ops s).enabledList, enabledInMap (applyOps ops s) id = true) ∧
    (∀ id, id ∉ (DeleteCookie id (applyOps ops s)).enabledList) := by
  have hinv2 := applyOps_storeInv ops s hinv
  obtain ⟨hkeys, hnd, hlist, hmap, hidc⟩ := hinv2
  refine ⟨hnd, ?_, hlist, ?_⟩
  · intro id c hc hcd hmem
    have h3 := hlist id hmem
    rw [enabledInMap_eq_of_alookup _ _ c hc, hcd] at h3
    exact Bool.false_ne_true h3
  · intro id
    exact deleteCookie_not_mem_enabled id _ ⟨hkeys, hnd, hlist, hmap, hidc⟩

/-- The C3 witness sequence: disable `b`, delete `a`. -/
def c3DemoOps : List StoreOp :=
  [.update "b" { enabled := some false }, .delete "a"]

/-- Witness for **C3** on a concrete store and operation sequence. -/
theorem c3_enabled_list_invariants_witness :
    (applyOps c3DemoOps demoStore).enabledList.Nodup ∧
    (∀ id c, alookup id (applyOps c3DemoOps demoStore).cookies = some c →
      c.enabled = false → id ∉ (applyOps c3DemoOps demoStore).enabledList) ∧
    (∀ id ∈ (applyOps c3DemoOps demoStore).enabledList,
      enabledInMap (applyOps c3DemoOps demoStore) id = true) ∧
    (∀ id, id ∉ (DeleteCookie id (applyOps c3DemoOps demoStore)).enabledList) :=
  c3_enabled_list_invariants demoStore c3DemoOps (by decide)

/-- **C4**.  `GetNextCookie` on a store whose enabled list is empty returns
`none` and the store is returned unchanged: no request counter, error
counter or last-used timestamp of any credential moves, and the cursor is
unchanged. -/
theorem c4_empty_enabled_returns_none (now : Nat) (s : DataStore)
    (h : s.enabledList = []) : GetNextCookie now s = .ok (none, s) := by
  unfold GetNextCookie
  rw [if_pos (by rw [h]; rfl)]

/-- Witness for **C4** on the empty store. -/
theorem c4_empty_enabled_returns_none_witness :
    GetNextCookie 5 emptyStore = .ok (none, emptyStore) :=
  c4_empty_enabled_returns_none 5 emptyStore rfl

/-! ## Chat relay (`services/cto_client.go`) -/

/-- A decoded JSON value: the result of `encoding/json` unmarshalling into
`map[string]interface{}` / `interface{}`. -/
inductive JValue where
  | null
  | bool (b : Bool)
  | num (n : Int)
  | str (s : String)
  | arr (elems : List JValue)
  | obj (fields : List (String × JValue))

/-- Field access `data["k"]` on a decoded value: a decoded JSON object is a
Go map; any other shape has no fields. -/
def jfield (j : JValue) (k : String) : Option JValue :=
  match j with
  | .obj fields => alookup k fields
  | _ => none

/-- The Go interface comparison `data["type"] == "s"`: true exactly when the
field exists and is the string `s`. -/
def typeIs (j : JValue) (s : String) : Bool :=
  match jfield j "type" with
  | some (.str t) => t == s
  | _ => false

/-- `StreamResponse` from `services/cto_client.go`: one value sent on
`responseChan`. -/
structure StreamResponse where
  content : String := ""
  done : Bool := false
  error : Option String := none
deriving Repr, DecidableEq

/-- A failed `conn.ReadMessage()`: a WebSocket close error carrying its
status code, or another transport error. -/
inductive ReadErr where
  | close (code : Nat)
  | transport (desc : String)
deriving Repr, DecidableEq

/-- One `conn.ReadMessage()` outcome on the established channel. -/
inductive ReadEvent where
  | msg (raw : String)
  | fail (e : ReadErr)
deriving Repr, DecidableEq

/-- `websocket.IsCloseError(err, websocket.CloseNormalClosure,
websocket.CloseGoingAway)`: the expected close status codes 1000 and
1001. -/
def isExpectedClose (e : ReadErr) : Bool :=
  match e with
  | .close code => code == 1000 || code == 1001
  | .transport _ => false

/-- Render a read failure the way `fmt.Errorf("...: %v", err)` captures
it. -/
def readErrText (e : ReadErr) : String :=
  match e with
  | .close code => "websocket: close " ++ toString code
  | .transport desc => desc

/-- The innermost step of the `update` branch: `inner["chat"]` must be an
object whose `content` is a non-empty string to surface a fragment. -/
def contentFragment (inner : JValue) : List StreamResponse :=
  if typeIs inner "chat" then
    match jfield inner "chat" with
    | some (.obj chatFields) =>
      match alookup "content" chatFields with
      | some (.str content) => if content ≠ "" then [{ content := content }] else []
      | _ => []
    | _ => []
  else []

/-- The `update` branch of the read loop: `data["buffer"]` must be a string
which decodes to the nested payload; everything else is silently ignored. -/
def chatFragments (parse : String → Option JValue) (j : JValue) : List StreamResponse :=
  if typeIs j "update" then
    match jfield j "buffer" with
    | some (.str buffer) =>
      match parse buffer with
      | none => []
      | some inner => contentFragment inner
    | _ => []
  else []

/-- The `state` branch of the read loop: a frame of kind `state` whose
`state` field is an object with boolean `inProgress = false` terminates the
stream. -/
def stateDone (j : JValue) : Bool :=
  if typeIs j "state" then
    match jfield j "state" with
    | some (.obj stateFields) =>
      match alookup "inProgress" stateFields with
      | some (.bool b) => !b
      | _ => false
    | _ => false
  else false

/-- The read loop of `StreamChat` (`services/cto_client.go`, established
channel): the input list is the sequence of `ReadMessage` outcomes, the
output the values sent on `responseChan` in order.  A read failure with an
expected close code yields `Done`; any other read failure yields an error;
an undecodable frame is skipped; an `update` frame surfaces its fragment;
a terminating `state` frame sends `Done` and stops.  (`parse` stands for
`json.Unmarshal`, decoding both the outer frame and the nested `buffer`
payload.) -/
def StreamChat (parse : String → Option JValue) : List ReadEvent → List StreamResponse
  | [] => []
  | .fail e :: _ =>
    if isExpectedClose e then [{ done := true }]
    else [{ error := some ("读取WebSocket消息失败: " ++ readErrText e) }]
  | .msg raw :: rest =>
    match parse raw with
    | none => StreamChat parse rest
    | some j =>
      if stateDone j then chatFragments parse j ++ [{ done := true }]
      else chatFragments parse j ++ StreamChat parse rest

/-- `GetFullResponse` from `services/cto_client.go`: drain the stream,
returning the first error if any, stopping at the first `Done`, and
concatenating fragment contents in arrival order. -/
def GetFullResponse (rs : List StreamResponse) : Except String String :=
  match rs with
  | [] => .ok ""
  | r :: rest =>
    match r.error with
    | some e => .error e
    | none =>
      if r.done then .ok ""
      else
        match GetFullResponse rest with
        | .ok tail => .ok (r.content ++ tail)
        | .error e => .error e

/-- In-order concatenation of the contents of a fragment list. -/
def concatContents (rs : List StreamResponse) : String :=
  match rs with
  | [] => ""
  | r :: rest => r.content ++ concatContents rest

/-- All fragments surfaced from a sequence of frames. -/
def fragmentsOf (parse : String → Option JValue) : List String → List StreamResponse
  | [] => []
  | raw :: rest =>
    (match parse raw with
     | none => []
     | some j => chatFragments parse j) ++ fragmentsOf parse rest

/-! ### Unfolding lemmas for the relay -/

theorem streamChat_fail (parse : String → Option JValue) (e : ReadErr)
    (rest : List ReadEvent) :
    StreamChat parse (.fail e :: rest) =
      if isExpectedClose e then [{ done := true }]
      else [{ error := some ("读取WebSocket消息失败: " ++ readErrText e) }] := rfl

theorem streamChat_msg_none (parse : String → Option JValue) (raw : String)
    (rest : List ReadEvent) (hp : parse raw = none) :
    StreamChat parse (.msg raw :: rest) = StreamChat parse rest := by
  conv_lhs => unfold StreamChat
  rw [hp]

theorem streamChat_msg_some (parse : String → Option JValue) (raw : String)
    (rest : List ReadEvent) (j : JValue) (hp : parse raw = some j) :
    StreamChat parse (.msg raw :: rest) =
      if stateDone j then chatFragments parse j ++ [{ done := true }]
      else chatFragments parse j ++ StreamChat parse rest := by
  conv_lhs => unfold StreamChat
  rw [hp]

theorem fragmentsOf_cons_none (parse : String → Option JValue) (raw : String)
    (rest : List String) (hp : parse raw = none) :
    fragmentsOf parse (raw :: rest) = fragmentsOf parse rest := by
  conv_lhs => unfold fragmentsOf
  rw [hp]
  rfl

theorem fragmentsOf_cons_some (parse : String → Option JValue) (raw : String)
    (rest : List String) (j : JValue) (hp : parse raw = some j) :
    fragmentsOf parse (raw :: rest) = chatFragments parse j ++ fragmentsOf parse rest := by
  conv_lhs => unfold fragmentsOf
  rw [hp]

theorem typeIs_state_of_stateDone (j : JValue) (h : stateDone j = true) :
    typeIs j "state" = true := by
  cases htype : typeIs j "state" with
  | false =>
    unfold stateDone at h
    rw [htype] at h
    simp at h
  | true => rfl

theorem stateDone_false_of_not_state (j : JValue) (hs : typeIs j "state" = false) :
    stateDone j = false := by
  unfold stateDone
  rw [hs]
  rfl

theorem chatFragments_nil_of_not_update (parse : String → Option JValue) (j : JValue)
    (hu : typeIs j "update" = false) : chatFragments parse j = [] := by
  unfold chatFragments
  rw [hu]
  rfl

theorem contentFragment_nil_of_not_chat (inner : JValue)
    (h : typeIs inner "chat" = false) : contentFragment inner = [] := by
  unfold contentFragment
  rw [h]
  rfl

theorem chatFragments_nil_of_inner_not_chat (parse : String → Option JValue) (j : JValue)
    (h : ∀ b inner, jfield j "buffer" = some (.str b) → parse b = some inner →
      typeIs inner "chat" = false) :
    chatFragments parse j = [] := by
  unfold chatFragments
  split
  · split
    · rename_i buffer hb
      split
      · rfl
      · rename_i inner hpb
        exact contentFragment_nil_of_not_chat inner (h buffer inner hb hpb)
    · rfl
  · rfl

theorem getFullResponse_cons_fragment (r : StreamResponse) (rest : List StreamResponse)
    (he : r.error = none) (hd : r.done = false) :
    GetFullResponse (r :: rest) =
      match GetFullResponse rest with
      | .ok tail => .ok (r.content ++ tail)
      | .error e => .error e := by
  conv_lhs => unfold GetFullResponse
  rw [he]
  show (if r.done then Except.ok "" else
    match GetFullResponse rest with
    | .ok tail => .ok (r.content ++ tail)
    | .error e => .error e) = _
  rw [if_neg (by simp [hd])]

/-! ### Concrete channel for the relay scenarios -/

/-- A concrete decoder for the specification's example channel: two
`update/chat` frames carrying "Hel" and "lo", then a
`state{inProgress: false}` frame.  (`json.Unmarshal` is library code
external to the repository; any decoder consistent with JSON gives exactly
these decoded shapes on the corresponding wire strings.) -/
def demoParse : String → Option JValue := fun raw =>
  if raw = "outerHel" then
    some (.obj [("type", .str "update"), ("buffer", .str "innerHel")])
  else if raw = "innerHel" then
    some (.obj [("type", .str "chat"), ("chat", .obj [("content", .str "Hel")])])
  else if raw = "outerLo" then
    some (.obj [("type", .str "update"), ("buffer", .str "innerLo")])
  else if raw = "innerLo" then
    some (.obj [("type", .str "chat"), ("chat", .obj [("content", .str "lo")])])
  else if raw = "stateEnd" then
    some (.obj [("type", .str "state"), ("state", .obj [("inProgress", .bool false)])])
  else none

/-- The example channel: "Hel", "lo", then the terminating state frame. -/
def demoEvents : List ReadEvent :=
  [.msg "outerHel", .msg "outerLo", .msg "stateEnd"]

/-! ## Claim theorems for the chat relay -/

/-- **C6**.  For any stream of frames none of which is a `state` envelope,
followed by a read failure: the relay emits the frames' fragments and then
exactly one terminal — a successful `Done` (not an error) when the failure
is an expected close (normal closure 1000 or going-away 1001), and an error
terminal for any other read failure. -/
theorem c6_close_handling (parse : String → Option JValue) (raws : List String)
    (e : ReadErr)
    (hns : ∀ raw ∈ raws, ∀ j, parse raw = some j → typeIs j "state" = false) :
    StreamChat parse (raws.map ReadEvent.msg ++ [.fail e]) =
      fragmentsOf parse raws ++
        [if isExpectedClose e then { done := true }
         else { error := some ("读取WebSocket消息失败: " ++ readErrText e) }] := by
  induction raws with
  | nil =>
    simp only [List.map_nil, List.nil_append, fragmentsOf, streamChat_fail]
    split <;> rfl
  | cons raw rest ih =>
    have hns1 : ∀ j, parse raw = some j → typeIs j "state" = false :=
      fun j hj => hns raw (List.mem_cons_self _ _) j hj
    have hns2 : ∀ r ∈ rest, ∀ j, parse r = some j → typeIs j "state" = false :=
      fun r hr => hns r (List.mem_cons_of_mem _ hr)
    rw [List.map_cons, List.cons_append]
    cases hp : parse raw with
    | none =>
      rw [streamChat_msg_none parse raw _ hp, ih hns2,
        fragmentsOf_cons_none parse raw rest hp]
    | some j =>
      have hsd : stateDone j = false := stateDone_false_of_not_state j (hns1 j hp)
      rw [streamChat_msg_some parse raw _ j hp, if_neg (by simp [hsd]), ih hns2,
        fragmentsOf_cons_some parse raw rest j hp, List.append_assoc]

/-- Witness for **C6**: one non-state frame, then a normal closure (1000)
yields the fragment and a successful `Done` terminal. -/
theorem c6_close_handling_witness :
    StreamChat demoParse (["outerHel"].map ReadEvent.msg ++ [.fail (.close 1000)]) =
      fragmentsOf demoParse ["outerHel"] ++
        [if isExpectedClose (.close 1000) then { done := true }
         else { error := some ("读取WebSocket消息失败: " ++
           readErrText (.close 1000)) }] :=
  c6_close_handling demoParse ["outerHel"] (.close 1000)
    (by
      intro raw hr j hj
      have hr2 : raw = "outerHel" := by simpa using hr
      rw [hr2] at hj
      have hp : demoParse "outerHel" =
          some (.obj [("type", .str "update"), ("buffer", .str "innerHel")]) := rfl
      rw [hp] at hj
      cases hj
      rfl)

/-- **C7**.  The example channel ("Hel", "lo", then
`state{inProgress: false}`) produces exactly the fragment sequence
`["Hel", "lo"]` followed by one `Done` terminal with nothing after it;
aggregate mode over that channel returns exactly `"Hello"`; and in general,
aggregate mode over any stream of pure fragments followed by a terminal
returns the in-order concatenation of the fragment contents. -/
theorem c7_fragments_then_terminal (frags rest : List StreamResponse)
    (hfr : ∀ r ∈ frags, r.error = none ∧ r.done = false) :
    StreamChat demoParse demoEvents =
      [{ content := "Hel" }, { content := "lo" }, { done := true }] ∧
    GetFullResponse (StreamChat demoParse demoEvents) = .ok "Hello" ∧
    GetFullResponse (frags ++ { done := true } :: rest) =
      .ok (concatContents frags) := by
  refine ⟨rfl, rfl, ?_⟩
  induction frags with
  | nil => rfl
  | cons r rest2 ih =>
    obtain ⟨he, hd⟩ := hfr r (List.mem_cons_self _ _)
    rw [List.cons_append, getFullResponse_cons_fragment r _ he hd,
      ih (fun x hx => hfr x (List.mem_cons_of_mem _ hx))]
    rfl

/-- Witness for **C7** with the two example fragments. -/
theorem c7_fragments_then_terminal_witness :
    StreamChat demoParse demoEvents =
      [{ content := "Hel" }, { content := "lo" }, { done := true }] ∧
    GetFullResponse (StreamChat demoParse demoEvents) = .ok "Hello" ∧
    GetFullResponse ([{ content := "Hel" }, { content := "lo" }] ++
        { done := true } :: []) =
      .ok (concatContents [{ content := "Hel" }, { content := "lo" }]) :=
  c7_fragments_then_terminal [{ content := "Hel" }, { content := "lo" }] []
    (by decide)

/-- **C8**.  A frame that fails to decode, or whose envelope kind is neither
`update` nor `state`, or whose nested payload is not of kind `chat` (and
which is not a terminating state frame), is skipped: the relay output equals
the output on the remaining events.  Concretely, injecting one malformed
frame between the "Hel" and "lo" fragments still delivers both fragments in
order, followed by the terminal. -/
theorem c8_malformed_frames_skipped (parse : String → Option JValue) (raw : String)
    (rest : List ReadEvent)
    (hmal : parse raw = none ∨
      (∀ j, parse raw = some j →
        typeIs j "update" = false ∧ typeIs j "state" = false) ∨
      (∀ j, parse raw = some j → stateDone j = false ∧
        ∀ b inner, jfield j "buffer" = some (.str b) → parse b = some inner →
          typeIs inner "chat" = false)) :
    StreamChat parse (.msg raw :: rest) = StreamChat parse rest ∧
    StreamChat demoParse
        [.msg "outerHel", .msg "garbage", .msg "outerLo", .msg "stateEnd"] =
      [{ content := "Hel" }, { content := "lo" }, { done := true }] := by
  refine ⟨?_, rfl⟩
  rcases hmal with h | h | h
  · exact streamChat_msg_none parse raw rest h
  · cases hp : parse raw with
    | none => exact streamChat_msg_none parse raw rest hp
    | some j =>
      obtain ⟨hu, hs⟩ := h j hp
      have hsd : stateDone j = false := stateDone_false_of_not_state j hs
      rw [streamChat_msg_some parse raw rest j hp, if_neg (by simp [hsd]),
        chatFragments_nil_of_not_update parse j hu, List.nil_append]
  · cases hp : parse raw with
    | none => exact streamChat_msg_none parse raw rest hp
    | some j =>
      obtain ⟨hsd, hinner⟩ := h j hp
      rw [streamChat_msg_some parse raw rest j hp, if_neg (by simp [hsd]),
        chatFragments_nil_of_inner_not_chat parse j hinner, List.nil_append]

/-- Witness for **C8**: a frame on which the decoder fails. -/
theorem c8_malformed_frames_skipped_witness :
    StreamChat demoParse (.msg "garbage" :: [.msg "outerLo"]) =
      StreamChat demoParse [.msg "outerLo"] ∧
    StreamChat demoParse
        [.msg "outerHel", .msg "garbage", .msg "outerLo", .msg "stateEnd"] =
      [{ content := "Hel" }, { content := "lo" }, { done := true }] :=
  c8_malformed_frames_skipped demoParse "garbage" [.msg "outerLo"]
    (Or.inl rfl)

/-! ## Completion orchestrator (`handlers/api.go`) -/

/-- `Message` from `handlers/api.go`. -/
structure ChatMessage where
  role : String
  content : String
deriving Repr, DecidableEq

/-- `ChatRequest` from `handlers/api.go`. -/
structure ChatRequest where
  model : String
  messages : List ChatMessage
  stream : Bool
deriving Repr, DecidableEq

/-- The backward scan `for i := len(req.Messages) - 1; i >= 0; i--` breaking
at the first `role == "user"`, phrased as the first user message of the
reversed list. -/
def firstUser : List ChatMessage → Option ChatMessage
  | [] => none
  | m :: rest => if m.role = "user" then some m else firstUser rest

/-- The prompt extracted by `ChatCompletions`: the content of the last
user-role message, or `""` when no user-role message exists. -/
def extractPrompt (msgs : List ChatMessage) : String :=
  match firstUser msgs.reverse with
  | some m => m.content
  | none => ""

/-- `modelMapping` from `handlers/api.go`, as the Go map read including its
zero value: `modelMapping[model]` is `""` for keys not in the map. -/
def modelMapping (model : String) : String :=
  if model = "gpt-5" then "GPT5"
  else if model = "claude-sonnet-4-5" then "ClaudeSonnet4_5"
  else ""

/-- The adapter choice of `ChatCompletions`: `adapter :=
modelMapping[req.Model]; if adapter == "" { adapter = "ClaudeSonnet4_5" }`. -/
def pickAdapter (model : String) : String :=
  if modelMapping model = "" then "ClaudeSonnet4_5" else modelMapping model

/-- The outcome of the credential-selection / prompt-extraction prefix of
`ChatCompletions` (after auth and body binding). -/
inductive ChatOutcome where
  | noCookie
  | badRequestNoUserMessage
  | proceed (cookieId : String) (prompt : String) (adapter : String)
deriving Repr, DecidableEq

/-- The store-and-request prefix of `ChatCompletions` (`handlers/api.go`):
select the next credential (503 `noCookie` when none), extract the prompt
as the last user message's content, reject as bad-request when it is empty,
and otherwise proceed to the upstream calls; `proceed` records the
credential id, the prompt handed to `CreateChat`, and the picked adapter.
The session/JWT/chat upstream calls that follow are network I/O outside the
store logic. -/
def chatCompletionsSelect (now : Nat) (req : ChatRequest) (s : DataStore) :
    Except String (ChatOutcome × DataStore) :=
  match GetNextCookie now s with
  | .error e => .error e
  | .ok (none, s1) => .ok (.noCookie, s1)
  | .ok (some cookieInfo, s1) =>
    if extractPrompt req.messages = "" then .ok (.badRequestNoUserMessage, s1)
    else .ok (.proceed cookieInfo.id (extractPrompt req.messages)
      (pickAdapter req.model), s1)

theorem firstUser_cons_user (m : ChatMessage) (rest : List ChatMessage)
    (h : m.role = "user") : firstUser (m :: rest) = some m := by
  conv_lhs => unfold firstUser
  rw [if_pos h]

theorem firstUser_cons_not (m : ChatMessage) (rest : List ChatMessage)
    (h : ¬ m.role = "user") : firstUser (m :: rest) = firstUser rest := by
  conv_lhs => unfold firstUser
  rw [if_neg h]

theorem firstUser_none (l : List ChatMessage) (h : ∀ m ∈ l, m.role ≠ "user") :
    firstUser l = none := by
  induction l with
  | nil => rfl
  | cons m rest ih =>
    rw [firstUser_cons_not m rest (h m (List.mem_cons_self _ _))]
    exact ih (fun x hx => h x (List.mem_cons_of_mem _ hx))

theorem chatCompletionsSelect_ok_some (now : Nat) (req : ChatRequest) (s : DataStore)
    (cookieInfo : CookieInfo) (s1 : DataStore)
    (hg : GetNextCookie now s = .ok (some cookieInfo, s1)) :
    chatCompletionsSelect now req s =
      if extractPrompt req.messages = "" then .ok (.badRequestNoUserMessage, s1)
      else .ok (.proceed cookieInfo.id (extractPrompt req.messages)
        (pickAdapter req.model), s1) := by
  unfold chatCompletionsSelect
  rw [hg]

/-- **C9**.  A chat request whose model name is not a key of the static
mapping is not rejected: the adapter falls back to the fixed
`"ClaudeSonnet4_5"`; model names in the mapping get their mapped adapter. -/
theorem c9_model_fallback (model : String)
    (h : model ≠ "gpt-5" ∧ model ≠ "claude-sonnet-4-5") :
    pickAdapter model = "ClaudeSonnet4_5" ∧
    pickAdapter "gpt-5" = "GPT5" ∧
    pickAdapter "claude-sonnet-4-5" = "ClaudeSonnet4_5" := by
  refine ⟨?_, rfl, rfl⟩
  unfold pickAdapter modelMapping
  rw [if_neg h.1, if_neg h.2]
  rfl

/-- Witness for **C9** at an unmapped model name. -/
theorem c9_model_fallback_witness :
    pickAdapter "gpt-4o" = "ClaudeSonnet4_5" ∧
    pickAdapter "gpt-5" = "GPT5" ∧
    pickAdapter "claude-sonnet-4-5" = "ClaudeSonnet4_5" :=
  c9_model_fallback "gpt-4o" (by decide)

/-- **C10**.  The prompt handed upstream is exactly the content of the last
user-role message (earlier and non-user messages are discarded; a message
list with no user role yields the empty prompt); an empty prompt is
rejected as bad-request before any upstream call — but the credential was
already selected, so its request counter is incremented and its last-used
timestamp set even for the rejected request. -/
theorem c10_prompt_extraction (now : Nat) (req : ChatRequest) (s : DataStore)
    (hinv : StoreInv s) (hcur : s.currentIndex < s.enabledList.length) :
    (∀ (pre : List ChatMessage) (m : ChatMessage), m.role = "user" →
      extractPrompt (pre ++ [m]) = m.content) ∧
    (∀ msgs : List ChatMessage, (∀ m ∈ msgs, m.role ≠ "user") →
      extractPrompt msgs = "") ∧
    ∃ c s1, alookup (s.enabledList.getD s.currentIndex "") s.cookies = some c ∧
      (extractPrompt req.messages = "" →
        chatCompletionsSelect now req s = .ok (.badRequestNoUserMessage, s1)) ∧
      (extractPrompt req.messages ≠ "" →
        chatCompletionsSelect now req s =
          .ok (.proceed c.id (extractPrompt req.messages)
            (pickAdapter req.model), s1)) ∧
      (∃ c1, alookup c.id s1.cookies = some c1 ∧
        c1.requestCount = c.requestCount + 1 ∧ c1.lastUsedAt = now) := by
  obtain ⟨c, hc, hcen, hcid, hstep, hinv2⟩ := getNextCookie_ok now s hinv hcur
  refine ⟨?_, ?_, c,
    { s with
      currentIndex := (s.currentIndex + 1) % s.enabledList.length
      cookies := bumpOne now (s.enabledList.getD s.currentIndex "") s.cookies },
    hc, ?_, ?_, ?_⟩
  · intro pre m hrole
    unfold extractPrompt
    rw [show (pre ++ [m]).reverse = m :: pre.reverse by simp]
    rw [firstUser_cons_user m _ hrole]
  · intro msgs h
    unfold extractPrompt
    rw [firstUser_none _ (fun m hm => h m (List.mem_reverse.mp hm))]
  · intro hp
    rw [chatCompletionsSelect_ok_some now req s _ _ hstep, if_pos hp]
  · intro hp
    rw [chatCompletionsSelect_ok_some now req s _ _ hstep, if_neg hp]
  · refine ⟨{ c with requestCount := c.requestCount + 1, lastUsedAt := now }, ?_, rfl, rfl⟩
    nth_rewrite 1 [hcid]
    show alookup (s.enabledList.getD s.currentIndex "")
      (bumpOne now (s.enabledList.getD s.currentIndex "") s.cookies) = _
    unfold bumpOne
    rw [hc]
    exact alookup_ainsert_self _ _ _

/-- The C10 witness request: system and assistant messages around a user
message whose content is "Hello". -/
def demoRequest : ChatRequest :=
  { model := "claude-sonnet-4-5"
    messages := [⟨"system", "sys"⟩, ⟨"user", "Hello"⟩, ⟨"assistant", "prev"⟩]
    stream := false }

/-- Witness for **C10** on the demo store and request. -/
theorem c10_prompt_extraction_witness :
    (∀ (pre : List ChatMessage) (m : ChatMessage), m.role = "user" →
      extractPrompt (pre ++ [m]) = m.content) ∧
    (∀ msgs : List ChatMessage, (∀ m ∈ msgs, m.role ≠ "user") →
      extractPrompt msgs = "") ∧
    ∃ c s1, alookup (demoStore.enabledList.getD demoStore.currentIndex "")
        demoStore.cookies = some c ∧
      (extractPrompt demoRequest.messages = "" →
        chatCompletionsSelect 9 demoRequest demoStore =
          .ok (.badRequestNoUserMessage, s1)) ∧
      (extractPrompt demoRequest.messages ≠ "" →
        chatCompletionsSelect 9 demoRequest demoStore =
          .ok (.proceed c.id (extractPrompt demoRequest.messages)
            (pickAdapter demoRequest.model), s1)) ∧
      (∃ c1, alookup c.id s1.cookies = some c1 ∧
        c1.requestCount = c.requestCount + 1 ∧ c1.lastUsedAt = 9) :=
  c10_prompt_extraction 9 demoRequest demoStore (by decide) (by decide)

/-! ## Usage cache -/

/-- `BillingInfo` from `services/cto_client.go`. -/
structure BillingInfo where
  active : Bool
  currentBillingTier : Int
  taskCreditsPeriod : String
  taskCreditsLimit : Int
  taskCreditsUsage : Int
  taskCreditsNonExpiringBalance : Int
  taskConcurrencyLimit : Int
  taskConcurrencyUsage : Int
  startDate : String
  seats : Int
  isAnnualPlan : Bool
  billingPeriod : Option String
  pendingPlanChanges : Option String
  totalPlanCost : Option String
  nextInvoiceAmount : Option String
deriving Repr, DecidableEq

/-- Modelled from the spec: the `UsageManager` implementation
(`services.NewUsageManager`, its cached `GetBillingInfo`, `IsStale`,
`RefreshAsync`) is called from `handlers/api.go` but its source file is not
under `src/`.  Spec §4.4: a single global cache slot `(snapshot,
completedAt)` plus an `inProgress` flag, guarded by one lock. -/
structure UsageManager where
  cached : Option BillingInfo
  completedAt : Nat
  inProgress : Bool
deriving Repr, DecidableEq

/-- Modelled from the spec (§4.4): the elected refresher invokes the
fetcher once; on success it atomically installs the new snapshot with its
completion time, on failure it leaves the old value untouched and
propagates the error to its own caller. -/
def UsageManager.refresh (now : Nat) (fetch : Except String BillingInfo)
    (u : UsageManager) : Except String BillingInfo × Nat × UsageManager :=
  match fetch with
  | .ok nb => (.ok nb, 1, { cached := some nb, completedAt := now, inProgress := false })
  | .error e => (.error e, 1, { u with inProgress := false })

/-- Modelled from the spec (§4.4 `get`, lock held): if a cached value
exists and `now - completedAt < ttl`, return it immediately (no fetch);
otherwise return the stale value when a refresh is in progress, retry
(bounded by `fuel`, the spec's bounded recursive retry) when in progress
with no value yet, or become the sole refresher.  The middle component
counts the fetcher invocations of the call. -/
def UsageManager.get (fuel now ttl : Nat) (fetch : Except String BillingInfo)
    (u : UsageManager) : Except String BillingInfo × Nat × UsageManager :=
  match fuel with
  | 0 => (.error "usage refresh retry budget exhausted", 0, u)
  | fuel2 + 1 =>
    match u.cached with
    | some b =>
      if now - u.completedAt < ttl then (.ok b, 0, u)
      else if u.inProgress then (.ok b, 0, u)
      else UsageManager.refresh now fetch u
    | none =>
      if u.inProgress then UsageManager.get fuel2 now ttl fetch u
      else UsageManager.refresh now fetch u

/-- `K` consecutive `get` calls (the spec's K concurrent calls, serialised
by the cache's single lock), collecting every result and summing the fetch
invocations. -/
def UsageManager.getK (fuel now ttl : Nat) (fetch : Except String BillingInfo) :
    Nat → UsageManager → List (Except String BillingInfo) × Nat × UsageManager
  | 0, u => ([], 0, u)
  | k + 1, u =>
    match UsageManager.get fuel now ttl fetch u with
    | (r, n, u1) =>
      match UsageManager.getK fuel now ttl fetch k u1 with
      | (rs, n2, u2) => (r :: rs, n + n2, u2)

theorem UsageManager.getK_succ (fuel now ttl : Nat) (fetch : Except String BillingInfo)
    (k : Nat) (u : UsageManager) (r : Except String BillingInfo) (n : Nat)
    (u1 : UsageManager) (rs : List (Except String BillingInfo)) (n2 : Nat)
    (u2 : UsageManager)
    (h1 : UsageManager.get fuel now ttl fetch u = (r, n, u1))
    (h2 : UsageManager.getK fuel now ttl fetch k u1 = (rs, n2, u2)) :
    UsageManager.getK fuel now ttl fetch (k + 1) u = (r :: rs, n + n2, u2) := by
  conv_lhs => unfold UsageManager.getK
  rw [h1]
  show (match UsageManager.getK fuel now ttl fetch k u1 with
    | (rs, n2, u2) => (r :: rs, n + n2, u2)) = _
  rw [h2]

/-- **C5** (spec-modelled).  While a cached snapshot is fresh
(`now - completedAt < ttl`), a `get` returns that snapshot immediately with
zero fetcher invocations and leaves the cache untouched; hence `K` such
calls, serialised by the cache lock, all return the cached snapshot with
zero fetcher invocations in total. -/
theorem c5_fresh_cache_hit (fuel now ttl k : Nat) (fetch : Except String BillingInfo)
    (u : UsageManager) (b : BillingInfo) (hfuel : 0 < fuel)
    (hb : u.cached = some b) (hfresh : now - u.completedAt < ttl) :
    UsageManager.get fuel now ttl fetch u = (.ok b, 0, u) ∧
    UsageManager.getK fuel now ttl fetch k u = (List.replicate k (.ok b), 0, u) := by
  have hone : UsageManager.get fuel now ttl fetch u = (.ok b, 0, u) := by
    cases fuel with
    | zero => omega
    | succ f =>
      conv_lhs => unfold UsageManager.get
      rw [hb]
      show (if now - u.completedAt < ttl then ((Except.ok b : Except String BillingInfo), 0, u)
        else if u.inProgress then (.ok b, 0, u)
        else UsageManager.refresh now fetch u) = _
      rw [if_pos hfresh]
  refine ⟨hone, ?_⟩
  induction k with
  | zero => rfl
  | succ k2 ih =>
    rw [UsageManager.getK_succ fuel now ttl fetch k2 u _ _ _ _ _ _ hone ih]
    simp [List.replicate_succ]

/-- A concrete fresh snapshot for the C5 witness. -/
def demoBilling : BillingInfo :=
  { active := true, currentBillingTier := 1, taskCreditsPeriod := "monthly",
    taskCreditsLimit := 100, taskCreditsUsage := 7, taskCreditsNonExpiringBalance := 0,
    taskConcurrencyLimit := 2, taskConcurrencyUsage := 0, startDate := "2024-01-01",
    seats := 1, isAnnualPlan := false, billingPeriod := none,
    pendingPlanChanges := none, totalPlanCost := none, nextInvoiceAmount := none }

/-- Witness for **C5**: a fresh cached snapshot, three serialised `get`
calls, a fetcher that would fail if it were ever invoked. -/
theorem c5_fresh_cache_hit_witness :
    UsageManager.get 2 10 300 (.error "fetch must not run")
      { cached := some demoBilling, completedAt := 0, inProgress := false } =
      (.ok demoBilling, 0,
        { cached := some demoBilling, completedAt := 0, inProgress := false }) ∧
    UsageManager.getK 2 10 300 (.error "fetch must not run") 3
      { cached := some demoBilling, completedAt := 0, inProgress := false } =
      (List.replicate 3 (.ok demoBilling), 0,
        { cached := some demoBilling, completedAt := 0, inProgress := false }) :=
  c5_fresh_cache_hit 2 10 300 3 (.error "fetch must not run")
    { cached := some demoBilling, completedAt := 0, inProgress := false }
    demoBilling (by decide) rfl (by decide)

end Cto2api
